import Mathlib

/-!
Verification of the project/worktree resolution engine and worktree lifecycle
of the `git-worktree-cli` repository, as a shallow embedding in Lean 4.

Paths are modelled as lists of components (`List String`), the filesystem as a
record of probing functions (`FS`), and git/hook subprocesses as environment
records mapping argument vectors to outcomes.  Rust string operations are
re-implemented structurally over `List Char` so that every definition is
executable by `decide`/`rfl`.
-/

set_option maxRecDepth 4000

/-! ## String primitives (faithful models of the Rust `str` operations used) -/

/-- Rust `str::starts_with`. -/
def strStartsWith (s pat : String) : Bool :=
  pat.data.isPrefixOf s.data

/-- Rust `str::strip_prefix`: `some rest` when `s = pat ++ rest`. -/
def strStripPre (s pat : String) : Option String :=
  if pat.data.isPrefixOf s.data then some ⟨s.data.drop pat.data.length⟩ else none

/-- Rust `str::ends_with`. -/
def strEndsWith (s pat : String) : Bool :=
  pat.data.isSuffixOf s.data

/-- Fuel-driven repeated suffix removal (the fuel is the string length, which
bounds the number of removals). -/
def dropSuffixAll (pat : List Char) : Nat → List Char → List Char
  | 0, s => s
  | Nat.succ fuel, s =>
    if !pat.isEmpty && pat.isSuffixOf s then
      dropSuffixAll pat fuel (s.take (s.length - pat.length))
    else s

/-- Rust `str::trim_end_matches`: repeatedly removes the suffix `pat`. -/
def trimEndMatchesStr (s pat : String) : String :=
  ⟨dropSuffixAll pat.data s.data.length s.data⟩

/-- Fuel-driven repeated prefix removal. -/
def dropPreAll (pat : List Char) : Nat → List Char → List Char
  | 0, s => s
  | Nat.succ fuel, s =>
    if !pat.isEmpty && pat.isPrefixOf s then
      dropPreAll pat fuel (s.drop pat.length)
    else s

/-- Rust `str::trim_start_matches`: repeatedly removes the leading `pat`. -/
def trimStartMatchesStr (s pat : String) : String :=
  ⟨dropPreAll pat.data s.data.length s.data⟩

/-- Rust `str::trim` (ASCII whitespace suffices for the inputs involved). -/
def strTrim (s : String) : String :=
  ⟨((s.data.dropWhile Char.isWhitespace).reverse.dropWhile Char.isWhitespace).reverse⟩

/-- Rust `str::to_lowercase` (ASCII case suffices for the inputs involved). -/
def strToLower (s : String) : String :=
  ⟨s.data.map Char.toLower⟩

/-- Rust `String::is_empty`. -/
def strIsEmpty (s : String) : Bool :=
  s.data.isEmpty

/-- Rust `str::contains` for a literal substring pattern. -/
def listContainsSub : List Char → List Char → Bool
  | s, pat =>
    pat.isPrefixOf s ||
      match s with
      | [] => false
      | _ :: rest => listContainsSub rest pat

/-- Rust `str::contains` on strings. -/
def strContainsSub (s pat : String) : Bool :=
  listContainsSub s.data pat.data

/-- Replace every non-overlapping occurrence of `pat` (nonempty at all call
sites) by `repl`, scanning left to right; fuel bounds the scan. -/
def replaceAll (pat repl : List Char) : Nat → List Char → List Char
  | 0, s => s
  | Nat.succ fuel, s =>
    match s with
    | [] => []
    | c :: rest =>
      if !pat.isEmpty && pat.isPrefixOf s then
        repl ++ replaceAll pat repl fuel (s.drop pat.length)
      else
        c :: replaceAll pat repl fuel rest

/-- Rust `str::replace` with a string pattern (call sites never pass an empty
pattern). -/
def strReplaceAll (s pat repl : String) : String :=
  ⟨replaceAll pat.data repl.data s.data.length s.data⟩

/-- Rust `str::replace` with a `char` pattern. -/
def charReplace (s : String) (a b : Char) : String :=
  ⟨s.data.map (fun c => if c = a then b else c)⟩

/-- Take the first `n` characters (models byte slicing of ASCII strings). -/
def strTakeN (s : String) (n : Nat) : String :=
  ⟨s.data.take n⟩

/-- Split a character list at newline characters (keeps empty pieces). -/
def splitNl : List Char → List Char → List (List Char)
  | [], acc => [acc.reverse]
  | c :: rest, acc =>
    if c = '\n' then acc.reverse :: splitNl rest [] else splitNl rest (c :: acc)

/-- Strip one trailing carriage return, as Rust `str::lines` does per line. -/
def stripCrChars (l : List Char) : List Char :=
  if l.getLast? = some '\r' then l.dropLast else l

/-- Rust `str::lines`: split on `\n`, no trailing empty line, strip one
trailing `\r` per line. -/
def rustLines (s : String) : List String :=
  if s.data.isEmpty then []
  else
    let parts := splitNl s.data []
    let parts := if parts.getLast? = some [] then parts.dropLast else parts
    parts.map (fun l => ⟨stripCrChars l⟩)

/-- Rust `str::split_once` on a character separator. -/
def splitOnceAux (c : Char) : List Char → Option (List Char × List Char)
  | [] => none
  | a :: rest =>
    if a = c then some ([], rest)
    else (splitOnceAux c rest).map (fun pr => (a :: pr.1, pr.2))

/-- Rust `str::split_once` (also models `splitn(2, c)` producing two parts). -/
def splitOnce (s : String) (c : Char) : Option (String × String) :=
  (splitOnceAux c s.data).map (fun pr => (⟨pr.1⟩, ⟨pr.2⟩))

/-! ## Filesystem model

A record of the probing operations the code performs.  `readDir` returns the
entry names in enumeration order, `none` meaning the read itself failed.
`strPathExists` is `Path::new(raw).exists()` for a raw string read out of a
`.git` file. -/

structure FS where
  pathExists : List String → Bool
  isFile : List String → Bool
  isDir : List String → Bool
  readDir : List String → Option (List String)
  readFile : List String → Option String
  strPathExists : String → Bool

/-! ## `src/core/project.rs` -/

/-- The fixed worktrees-directory suffix. -/
def wtSuffix : String := "-worktrees"

/-- Validation of a derived main-project candidate (project.rs lines 92-106):
the candidate itself has a `.git` entry, or one of its immediate
subdirectories does; a failing directory read counts as no entries. -/
def validCandidate (fs : FS) (cand : List String) : Bool :=
  fs.pathExists (cand ++ [".git"]) ||
    ((fs.readDir cand).getD []).any
      (fun e => fs.isDir (cand ++ [e]) && fs.pathExists (cand ++ [e, ".git"]))

/-- Walk over `Path::ancestors`, fuel-aligned with the path length: at each
ancestor whose name ends with `-worktrees`, derive the sibling by
`trim_end_matches("-worktrees")` and return it if it validates. -/
def fmpAux (fs : FS) : Nat → List String → Option (List String)
  | 0, _ => none
  | Nat.succ fuel, p =>
    let name := p.getLast?.getD ""
    if strEndsWith name wtSuffix then
      let candidate := p.dropLast ++ [trimEndMatchesStr name wtSuffix]
      if validCandidate fs candidate then some candidate
      else fmpAux fs fuel p.dropLast
    else fmpAux fs fuel p.dropLast

/-- `find_main_project_from_worktree` (project.rs lines 83-112). -/
def find_main_project_from_worktree (fs : FS) (p : List String) : Option (List String) :=
  fmpAux fs p.length p

/-- `find_main_project_from_worktrees_path` (project.rs lines 115-143); its
body is line-for-line the same walk as `find_main_project_from_worktree`. -/
def find_main_project_from_worktrees_path (fs : FS) (p : List String) : Option (List String) :=
  fmpAux fs p.length p

/-- Environment for `find_project_root_from`: the filesystem, the result of
`git rev-parse --show-toplevel` run from the current directory (`none` when
not inside a git repository), and the flattening of
`GitWorktreeConfig::find_config()` to the recorded `project_path` (`none`
covers: lookup error, no config found, and a config without `project_path`,
which all fall through identically in the source). -/
structure ResolveEnv where
  fs : FS
  gitRoot : Option (List String)
  configProjectPath : Option (List String)

/-- `find_project_root_from` (project.rs lines 53-80). -/
def find_project_root_from (env : ResolveEnv) (start : List String) :
    Except String (List String) :=
  match env.gitRoot with
  | some gitRoot =>
    match find_main_project_from_worktree env.fs gitRoot with
    | some mainProject => .ok mainProject
    | none => .ok gitRoot
  | none =>
    match find_main_project_from_worktrees_path env.fs start with
    | some mainProject => .ok mainProject
    | none =>
      match env.configProjectPath with
      | some projectPath => .ok projectPath
      | none =>
        .error "Not in a git-worktree-cli project. Run 'gwt init' inside a git repository."

/-- Loop of `find_existing_worktree` (project.rs lines 202-218): a `.git`
file wins immediately, a `.git` directory overwrites the fallback. -/
def few_loop (fs : FS) (root : List String) :
    List String → Option (List String) → Except String (List String)
  | [], mainRepo =>
    match mainRepo with
    | some m => .ok m
    | none => .error "No existing git directory found in project"
  | e :: rest, mainRepo =>
    let dir := root ++ [e]
    if fs.isDir dir then
      let g := dir ++ [".git"]
      if fs.pathExists g then
        if fs.isFile g then .ok dir
        else if fs.isDir g then few_loop fs root rest (some dir)
        else few_loop fs root rest mainRepo
      else few_loop fs root rest mainRepo
    else few_loop fs root rest mainRepo

/-- `find_existing_worktree` (project.rs lines 179-227). -/
def find_existing_worktree (fs : FS) (root : List String) : Except String (List String) :=
  let rootGit := root ++ [".git"]
  if fs.pathExists rootGit && fs.isFile rootGit then .ok root
  else
    match fs.readDir root with
    | none => .error "IO error reading project root"
    | some entries =>
      few_loop fs root entries
        (if fs.pathExists rootGit && fs.isDir rootGit then some root else none)

/-- `is_orphaned_worktree` (project.rs lines 229-255). -/
def is_orphaned_worktree (fs : FS) (path : List String) : Bool :=
  let gitFile := path ++ [".git"]
  if !fs.isFile gitFile then false
  else
    match fs.readFile gitFile with
    | none => false
    | some content =>
      match (rustLines content).find? (fun l => strStartsWith l "gitdir: ") with
      | none => false
      | some gitdirLine =>
        !fs.strPathExists (strTrim (trimStartMatchesStr gitdirLine "gitdir: "))

/-- Loop of `find_valid_git_directory` (project.rs lines 271-285): the first
subdirectory whose `.git` is a directory, or a file and not orphaned, wins. -/
def fvgd_loop (fs : FS) (root : List String) : List String → Except String (List String)
  | [] => .error "No valid git directory found in project"
  | e :: rest =>
    let dir := root ++ [e]
    if fs.isDir dir then
      let g := dir ++ [".git"]
      if fs.isDir g then .ok dir
      else if fs.isFile g && !is_orphaned_worktree fs dir then .ok dir
      else fvgd_loop fs root rest
    else fvgd_loop fs root rest

/-- `find_valid_git_directory` (project.rs lines 261-290). -/
def find_valid_git_directory (fs : FS) (root : List String) : Except String (List String) :=
  if fs.isDir (root ++ [".git"]) then .ok root
  else
    match fs.readDir root with
    | none => .error "IO error reading project root"
    | some entries => fvgd_loop fs root entries

/-- `clean_branch_name` (project.rs lines 293-295). -/
def clean_branch_name (branch : String) : String :=
  (strStripPre (strTrim branch) "refs/heads/").getD (strTrim branch)

instance {ε α : Type} [DecidableEq ε] [DecidableEq α] : DecidableEq (Except ε α) := fun x y =>
  match x, y with
  | .ok a, .ok b =>
    if h : a = b then isTrue (by rw [h]) else isFalse (by intro hc; cases hc; exact h rfl)
  | .error e, .error f =>
    if h : e = f then isTrue (by rw [h]) else isFalse (by intro hc; cases hc; exact h rfl)
  | .ok _, .error _ => isFalse (by intro hc; cases hc)
  | .error _, .ok _ => isFalse (by intro hc; cases hc)

/-! ## `src/git.rs`: worktree records and porcelain parsing -/

/-- The `Worktree` record (git.rs lines 133-139); `path` kept as the raw
string git printed. -/
structure Worktree where
  path : String
  head : String
  branch : Option String
  bare : Bool
deriving DecidableEq

/-- The classification of one porcelain line (git.rs lines 209-215). -/
inductive WtLine
  | new (path : String)
  | hd (head : String)
  | br (branch : String)
  | bare
  | other
deriving DecidableEq

/-- `parse_worktree_line` (git.rs lines 217-229). -/
def parse_worktree_line (line : String) : WtLine :=
  match strStripPre line "worktree " with
  | some path => .new path
  | none =>
    match strStripPre line "HEAD " with
    | some head => .hd head
    | none =>
      match strStripPre line "branch " with
      | some branch => .br branch
      | none => if line = "bare" then .bare else .other

/-- The in-progress entry (git.rs lines 145-151). -/
structure PartialWt where
  path : Option String := none
  head : Option String := none
  branch : Option String := none
  bare : Bool := false
deriving DecidableEq

/-- `PartialWorktree::into_worktree` (git.rs lines 153-165): promoted only
when both path and head were observed. -/
def PartialWt.into_worktree (w : PartialWt) : Option Worktree :=
  match w.path, w.head with
  | some path, some head => some ⟨path, head, w.branch, w.bare⟩
  | _, _ => none

/-- Flush the current partial entry, silently dropping an incomplete one. -/
def flushPartial (cur : Option PartialWt) : List Worktree :=
  match cur with
  | none => []
  | some w => w.into_worktree.toList

/-- The line loop of `parse_worktree_list` (git.rs lines 167-204), with the
final flush at end of input. -/
def parseLoop : List String → Option PartialWt → List Worktree
  | [], cur => flushPartial cur
  | l :: rest, cur =>
    match parse_worktree_line l with
    | .new path => flushPartial cur ++ parseLoop rest (some { path := some path })
    | .hd head => parseLoop rest (cur.map fun w => { w with head := some head })
    | .br branch => parseLoop rest (cur.map fun w => { w with branch := some branch })
    | .bare => parseLoop rest (cur.map fun w => { w with bare := true })
    | .other => parseLoop rest cur

/-- `parse_worktree_list` (git.rs lines 141-207); the source's `Result` is
always `Ok`, so the value is the list itself. -/
def parse_worktree_list (output : String) : List Worktree :=
  parseLoop (rustLines output) none

/-! ### Specification-side description of the parse (from the spec's words)

An entry is produced for each `worktree <path>` line; the lines up to the
next `worktree` line or end of input populate it; it is kept exactly when a
`HEAD <hash>` line was observed there; `branch` is optional, `bare` defaults
to false and is set by a literal `bare` line; anything else is ignored. -/

/-- A line that starts a new entry. -/
def isWtStart (l : String) : Bool := strStartsWith l "worktree "

/-- Last observed `HEAD` value of a segment. -/
def segHead (seg : List String) : Option String :=
  (seg.filterMap (fun l => strStripPre l "HEAD ")).getLast?

/-- Last observed `branch` value of a segment. -/
def segBranch (seg : List String) : Option String :=
  (seg.filterMap (fun l => strStripPre l "branch ")).getLast?

/-- Whether a literal `bare` line occurs in a segment. -/
def segBare (seg : List String) : Bool :=
  seg.any (fun l => l = "bare")

theorem len_dropWhile_le {α : Type} (p : α → Bool) (l : List α) :
    (l.dropWhile p).length ≤ l.length := by
  induction l with
  | nil => simp [List.dropWhile]
  | cons a rest ih =>
    by_cases h : p a
    · simp [List.dropWhile, h]; omega
    · simp [List.dropWhile, h]

/-- Specification of the parse, following the spec's words: segment the lines
at `worktree` lines and keep exactly the segments that observed a `HEAD`. -/
def worktreeEntriesSpec : List String → List Worktree
  | [] => []
  | l :: rest =>
    match strStripPre l "worktree " with
    | some path =>
      let seg := rest.takeWhile (fun x => !isWtStart x)
      (match segHead seg with
       | some head => [{ path := path, head := head, branch := segBranch seg, bare := segBare seg }]
       | none => []) ++ worktreeEntriesSpec (rest.dropWhile (fun x => !isWtStart x))
    | none => worktreeEntriesSpec rest
termination_by lines => lines.length
decreasing_by
  · simp only [List.length_cons]
    exact Nat.lt_succ_of_le (len_dropWhile_le _ rest)
  · simp [Nat.lt_succ_self]

/-! ## `src/git.rs`: subprocess environment and `branch_exists` -/

/-- Outcomes of git subprocesses: `exec` models `execute_streaming`, `capture`
models `execute_capture` (returning the trimmed stdout on success and the
error text otherwise).  The working directory passed by the source does not
affect which command is issued, so it is not part of the key. -/
structure GitEnv where
  exec : List String → Except String Unit
  capture : List String → Except String String

/-- Argument vector of `git fetch origin`. -/
def fetchCmd : List String := ["fetch", "origin"]

/-- Argument vector of the local-branch probe in `branch_exists`. -/
def localProbeCmd (branchName : String) : List String :=
  ["branch", "--list", branchName]

/-- Argument vector of the remote-branch probe in `branch_exists`. -/
def remoteProbeCmd (branchName : String) : List String :=
  ["branch", "-r", "--list", "origin/" ++ branchName]

/-- `branch_exists` (git.rs lines 108-118): both probes swallow failures via
`unwrap_or_default()` and an empty listing means the branch is absent. -/
def branch_exists (genv : GitEnv) (branchName : String) : Except String (Bool × Bool) :=
  let localOut := match genv.capture (localProbeCmd branchName) with
    | .ok s => s
    | .error _ => ""
  let remoteOut := match genv.capture (remoteProbeCmd branchName) with
    | .ok s => s
    | .error _ => ""
  .ok (!strIsEmpty localOut, !strIsEmpty remoteOut)

/-! ## `src/hooks.rs` -/

/-- The `hooks` section of the configuration (config.rs lines 27-36). -/
structure HooksData where
  post_add : Option (List String) := none
  pre_remove : Option (List String) := none
  post_remove : Option (List String) := none
deriving DecidableEq

/-- The hook command lists selected for a hook type (hooks.rs lines 23-28);
`none` also covers the unknown-type arm, which returns without running
anything. -/
def hookCommandsFor (h : HooksData) (hookType : String) : Option (List String) :=
  if hookType = "postAdd" then h.post_add
  else if hookType = "preRemove" then h.pre_remove
  else if hookType = "postRemove" then h.post_remove
  else none

/-- Variable substitution applied to one hook command (hooks.rs lines 43-47):
each `${name}` placeholder is textually replaced by its value, in order. -/
def substVars (vars : List (String × String)) (command : String) : String :=
  vars.foldl (fun c v => strReplaceAll c ("$\x7b" ++ v.1 ++ "\x7d") v.2) command

/-- The hook loop (hooks.rs lines 41-61): substitute, run through the shell,
and continue regardless of the outcome; returns the commands as executed. -/
def run_hook_commands (sh : String → Except String Unit) (vars : List (String × String)) :
    List String → List String
  | [] => []
  | hook :: rest =>
    let command := substVars vars hook
    match sh command with
    | .ok _ => command :: run_hook_commands sh vars rest
    | .error _ => command :: run_hook_commands sh vars rest

/-- `execute_hooks` (hooks.rs lines 8-64).  `findConfig` is the outcome of
`GitWorktreeConfig::find_config()` restricted to what the function reads:
`none` = no config file, `some none` = config without a `hooks` section.
Returns the result together with the shell commands that were executed. -/
def execute_hooks (findConfig : Except String (Option (Option HooksData)))
    (sh : String → Except String Unit) (hookType : String)
    (vars : List (String × String)) : Except String Unit × List String :=
  match findConfig with
  | .error e => (.error e, [])
  | .ok none => (.ok (), [])
  | .ok (some none) => (.ok (), [])
  | .ok (some (some hooks)) =>
    match hookCommandsFor hooks hookType with
    | none => (.ok (), [])
    | some commands =>
      if commands.isEmpty then (.ok (), [])
      else (.ok (), run_hook_commands sh vars commands)

/-! ## `src/commands/add.rs` -/

/-- The body of `add::run` from the point where paths and main branch are
resolved (add.rs lines 11-16 and 29-106): the empty-name guard, `fetch
origin`, the two existence probes, exactly one creation command, then the
`postAdd` hooks.  Returns the result and the ordered trace of git argument
vectors that were issued. -/
def addRunFromPaths (genv : GitEnv)
    (findConfig : Except String (Option (Option HooksData)))
    (sh : String → Except String Unit)
    (targetPath mainBranch branchName : String) :
    Except String Unit × List (List String) :=
  if strIsEmpty branchName then
    (.error "Error: Branch name is required", [])
  else
    match genv.exec fetchCmd with
    | .error e => (.error e, [fetchCmd])
    | .ok _ =>
      match branch_exists genv branchName with
      | .error e => (.error e, [fetchCmd, localProbeCmd branchName, remoteProbeCmd branchName])
      | .ok (localExists, remoteExists) =>
        let creation :=
          if localExists then
            ["worktree", "add", targetPath, branchName]
          else if remoteExists then
            ["worktree", "add", targetPath, "-b", branchName, "origin/" ++ branchName]
          else
            ["worktree", "add", "--no-track", targetPath, "-b", branchName,
              "origin/" ++ mainBranch]
        let trace := [fetchCmd, localProbeCmd branchName, remoteProbeCmd branchName, creation]
        match genv.exec creation with
        | .error e => (.error e, trace)
        | .ok _ =>
          match (execute_hooks findConfig sh "postAdd"
              [("branchName", branchName), ("worktreePath", targetPath)]).fst with
          | .error e => (.error e, trace)
          | .ok _ => (.ok (), trace)

/-! ## `src/commands/remove.rs` -/

/-- `PROTECTED_BRANCHES` (constants.rs lines 1-2). -/
def PROTECTED_BRANCHES : List String := ["main", "master", "dev", "develop"]

/-- Observable events of the remove flow: a git subprocess with its argument
vector, an interactive confirmation, or a hook shell command. -/
inductive RmEvent
  | git (args : List String)
  | prompt (msg : String)
  | sh (command : String)
deriving DecidableEq

/-- Environment of `remove::run`: current-directory containment test
(`current_dir.starts_with(path)`), the two interactive answers, the result of
`find_project_root()`, `set_current_dir`, the git subprocesses and the hook
configuration and shell. -/
structure RemoveEnv where
  currentDirIn : String → Bool
  confirmAnswer : String
  forceAnswer : String
  projectRoot : Except String String
  setCwd : Except String Unit
  exec : List String → Except String Unit
  capture : List String → Except String String
  findConfig : Except String (Option (Option HooksData))
  sh : String → Except String Unit

/-- `get_branch_display` (remove.rs lines 246-258). -/
def get_branch_display (wt : Worktree) : String :=
  match wt.branch with
  | some b => clean_branch_name b
  | none => if wt.bare then "(bare)" else strTakeN wt.head 8

/-- `find_current_worktree` and `find_worktree_by_branch` combined as
`find_target_worktree` (remove.rs lines 182-230): no name targets the
worktree containing the current directory; a name matches first by cleaned
branch name, then by final path component (modelled by the stored path's
last `/`-separated nonempty component). -/
def pathFileName (p : String) : Option String :=
  ((splitNl (p.data.map fun c => if c = '/' then '\n' else c) []).filter
      (fun l => !l.isEmpty)).getLast?.map (fun l => ⟨l⟩)

def find_target_worktree (currentDirIn : String → Bool) (worktrees : List Worktree)
    (branchName : Option String) : Except String Worktree :=
  match branchName with
  | none =>
    match worktrees.find? (fun wt => currentDirIn wt.path) with
    | some wt => .ok wt
    | none => .error "Not in a git worktree. Please specify a branch to remove."
  | some targetBranch =>
    match worktrees.find? (fun wt =>
        (wt.branch.map (fun b => clean_branch_name b == targetBranch)).getD false) with
    | some wt => .ok wt
    | none =>
      match worktrees.find? (fun wt =>
          (pathFileName wt.path).map (fun n => n == targetBranch) |>.getD false) with
      | some wt => .ok wt
      | none => .error "Worktree not found"

/-- Selection of the worktree to run git commands from (remove.rs lines
66-85): prefer another worktree on a protected branch, else any other. -/
def select_git_working_dir (worktrees : List Worktree) (target : Worktree) :
    Option Worktree :=
  match worktrees.find? (fun wt =>
      wt.path ≠ target.path &&
        (wt.branch.map (fun b =>
            PROTECTED_BRANCHES.contains ((strStripPre b "refs/heads/").getD b))).getD false) with
  | some wt => some wt
  | none => worktrees.find? (fun wt => wt.path ≠ target.path)

/-- The branch-deletion follow-up (remove.rs lines 99-154): protected names
are skipped entirely; otherwise `branch -d` is attempted, and only a "not
fully merged" failure leads to the force prompt and possibly `branch -D`. -/
def branch_deletion_events (capture : List String → Except String String)
    (forceAnswer : String) (branchDisplay : String) : List RmEvent :=
  if PROTECTED_BRANCHES.contains branchDisplay then []
  else
    let dCmd := ["branch", "-d", branchDisplay]
    match capture dCmd with
    | .ok _ => [RmEvent.git dCmd]
    | .error e =>
      if strContainsSub e "not fully merged" then
        let ans := strToLower (strTrim forceAnswer)
        if ans = "y" ∨ ans = "yes" then
          [RmEvent.git dCmd, RmEvent.prompt "Force delete the branch? (y/N): ",
            RmEvent.git ["branch", "-D", branchDisplay]]
        else
          [RmEvent.git dCmd, RmEvent.prompt "Force delete the branch? (y/N): "]
      else [RmEvent.git dCmd]

/-- `remove::run` (remove.rs lines 11-180), given the already-listed
worktrees (`find_git_directory` and `list_worktrees` succeeded).  Returns the
result and the ordered trace of observable events. -/
def removeRun (env : RemoveEnv) (worktrees : List Worktree) (branchName : Option String) :
    Except String Unit × List RmEvent :=
  if worktrees.isEmpty then (.ok (), [])
  else
    match find_target_worktree env.currentDirIn worktrees branchName with
    | .error e => (.error e, [])
    | .ok target =>
      if target.bare then (.error "Cannot remove the main (bare) repository.", [])
      else
        let branchDisplay := get_branch_display target
        let willRemoveCurrent := env.currentDirIn target.path
        let confirmEvt := RmEvent.prompt "Are you sure you want to remove this worktree? (y/N): "
        let ans := strToLower (strTrim env.confirmAnswer)
        if ans = "y" ∨ ans = "yes" then
          match env.projectRoot with
          | .error e => (.error e, [confirmEvt])
          | .ok _projectRoot =>
            match select_git_working_dir worktrees target with
            | none => (.error "No other worktrees found to execute git command from.", [confirmEvt])
            | some _gwd =>
              let removeCmd := ["worktree", "remove", target.path, "--force"]
              match env.exec removeCmd with
              | .error e => (.error e, [confirmEvt, RmEvent.git removeCmd])
              | .ok _ =>
                let delEvts := branch_deletion_events env.capture env.forceAnswer branchDisplay
                let baseTrace := confirmEvt :: RmEvent.git removeCmd :: delEvts
                let hooksStep :=
                  execute_hooks env.findConfig env.sh "postRemove"
                    [("branchName", branchDisplay), ("worktreePath", target.path)]
                if willRemoveCurrent then
                  match env.setCwd with
                  | .error e => (.error e, baseTrace)
                  | .ok _ => (hooksStep.fst, baseTrace ++ hooksStep.snd.map RmEvent.sh)
                else (hooksStep.fst, baseTrace ++ hooksStep.snd.map RmEvent.sh)
        else (.ok (), [confirmEvt])

/-! ## `src/config.rs`: repository-identity config filenames -/

/-- The host/path arm shared by the generic HTTPS and HTTP branches of
`extract_repo_identifier` (config.rs lines 250-262): `splitn(2, '/')` yields
two parts exactly when the input contains a slash. -/
def genericHostPath (withoutProtocol : String) : Option String :=
  match splitOnce withoutProtocol '/' with
  | some (host, path) =>
    some (charReplace host '.' '_' ++ "_" ++
      charReplace (trimEndMatchesStr path ".git") '/' '_')
  | none => none

/-- The generic `https://`/`http://` fallback of `extract_repo_identifier`. -/
def genericHttps (url : String) : Option String :=
  match strStripPre url "https://" with
  | some w => genericHostPath w
  | none =>
    match strStripPre url "http://" with
    | some w => genericHostPath w
    | none => none

/-- `extract_repo_identifier` (config.rs lines 215-265), with the checks in
source order; a `git@host:path` without a colon falls through to the HTTPS
branches exactly as in the source. -/
def extract_repo_identifier (url : String) : Option String :=
  match strStripPre url "git@github.com:" with
  | some rest =>
    some ("github_" ++ charReplace (trimEndMatchesStr rest ".git") '/' '_')
  | none =>
    match strStripPre url "https://github.com/" with
    | some rest =>
      some ("github_" ++ charReplace (trimEndMatchesStr rest ".git") '/' '_')
    | none =>
      match strStripPre url "git@bitbucket.org:" with
      | some rest =>
        some ("bitbucket_" ++ charReplace (trimEndMatchesStr rest ".git") '/' '_')
      | none =>
        match strStripPre url "https://bitbucket.org/" with
        | some rest =>
          some ("bitbucket_" ++ charReplace (trimEndMatchesStr rest ".git") '/' '_')
        | none =>
          match strStripPre url "git@" with
          | some rest =>
            match splitOnce rest ':' with
            | some (host, path) =>
              some (charReplace host '.' '_' ++ "_" ++
                charReplace (trimEndMatchesStr path ".git") '/' '_')
            | none => genericHttps url
          | none => genericHttps url

/-- `sanitize_for_filename` (config.rs lines 267-278). -/
def sanitize_for_filename (s : String) : String :=
  strToLower ⟨s.data.map (fun c => if c.isAlphanum || c = '_' || c = '-' then c else '_')⟩

/-- `generate_config_filename` (config.rs lines 206-213).  `short_hash` wraps
Rust's `DefaultHasher`, an opaque standard-library hash; it is passed as a
parameter since only the identifier arms matter to the properties here. -/
def generate_config_filename (short_hash : String → String) (repo_url : String) : String :=
  match extract_repo_identifier repo_url with
  | some id => sanitize_for_filename id ++ ".jsonc"
  | none => "url_" ++ short_hash repo_url ++ ".jsonc"

/-! ## Helper lemmas -/

theorem isPre_self_append (l m : List Char) : l.isPrefixOf (l ++ m) = true := by
  induction l with
  | nil => simp [List.isPrefixOf]
  | cons a rest ih => simp [List.isPrefixOf, ih]

theorem strStripPre_append (pat rest : String) :
    strStripPre (pat ++ rest) pat = some rest := by
  simp only [strStripPre, String.data_append, isPre_self_append, if_true]
  rw [List.drop_left]

theorem isPre_of_append_of_le (p q t : List Char)
    (h : p.isPrefixOf (q ++ t) = true) (hlen : p.length ≤ q.length) :
    p.isPrefixOf q = true := by
  induction p generalizing q with
  | nil => simp [List.isPrefixOf]
  | cons a p' ih =>
    cases q with
    | nil => simp at hlen
    | cons b q' =>
      simp only [List.cons_append, List.isPrefixOf, Bool.and_eq_true] at h ⊢
      exact ⟨h.1, ih q' h.2 (by simpa using hlen)⟩

theorem strip_https_git (r : String) :
    strStripPre ("https://github.com/" ++ r) "git@github.com:" = none := by
  simp only [strStripPre, String.data_append]
  have hfalse : ("git@github.com:".data.isPrefixOf
      ("https://github.com/".data ++ r.data)) = false := by
    by_contra hc
    have htrue : ("git@github.com:".data.isPrefixOf
        ("https://github.com/".data ++ r.data)) = true := by
      revert hc; cases ("git@github.com:".data.isPrefixOf
        ("https://github.com/".data ++ r.data)) <;> simp
    have := isPre_of_append_of_le _ _ _ htrue (by decide)
    exact absurd this (by decide)
  simp [hfalse]

/-! ## C6: `is_orphaned_worktree` characterization -/

/-- C6: `is_orphaned_worktree` is false when `.git` is not a file (so also
when it is a directory), false when the file is unreadable, false when no
`gitdir: ` line occurs, false when the `gitdir:` target exists, and true
exactly when `.git` is a readable file with a `gitdir:` line whose target
does not exist. -/
theorem is_orphaned_worktree_spec (fs : FS) (p : List String) :
    (fs.isFile (p ++ [".git"]) = false → is_orphaned_worktree fs p = false) ∧
    (fs.readFile (p ++ [".git"]) = none → is_orphaned_worktree fs p = false) ∧
    (∀ c, fs.readFile (p ++ [".git"]) = some c →
      (rustLines c).find? (fun l => strStartsWith l "gitdir: ") = none →
      is_orphaned_worktree fs p = false) ∧
    (∀ c gl, fs.readFile (p ++ [".git"]) = some c →
      (rustLines c).find? (fun l => strStartsWith l "gitdir: ") = some gl →
      fs.strPathExists (strTrim (trimStartMatchesStr gl "gitdir: ")) = true →
      is_orphaned_worktree fs p = false) ∧
    (is_orphaned_worktree fs p = true ↔
      fs.isFile (p ++ [".git"]) = true ∧
      ∃ c, fs.readFile (p ++ [".git"]) = some c ∧
        ∃ gl, (rustLines c).find? (fun l => strStartsWith l "gitdir: ") = some gl ∧
          fs.strPathExists (strTrim (trimStartMatchesStr gl "gitdir: ")) = false) := by
  refine ⟨?_, ?_, ?_, ?_, ?_⟩
  · intro h; simp [is_orphaned_worktree, h]
  · intro h
    cases hf : fs.isFile (p ++ [".git"]) <;> simp [is_orphaned_worktree, hf, h]
  · intro c hc hfind
    cases hf : fs.isFile (p ++ [".git"]) <;> simp [is_orphaned_worktree, hf, hc, hfind]
  · intro c gl hc hfind hex
    cases hf : fs.isFile (p ++ [".git"]) <;> simp [is_orphaned_worktree, hf, hc, hfind, hex]
  · cases hf : fs.isFile (p ++ [".git"])
    · simp [is_orphaned_worktree, hf]
    · cases hc : fs.readFile (p ++ [".git"])
      · simp [is_orphaned_worktree, hf, hc]
      · rename_i content
        cases hfind : (rustLines content).find? (fun l => strStartsWith l "gitdir: ")
        · simp [is_orphaned_worktree, hf, hc, hfind]
        · rename_i gl
          cases hex : fs.strPathExists (strTrim (trimStartMatchesStr gl "gitdir: ")) <;>
            simp [is_orphaned_worktree, hf, hc, hfind, hex]

/-- Filesystem of a concrete orphaned worktree: `.git` is a readable file
whose `gitdir:` target is absent. -/
def fsOrphan : FS :=
  { pathExists := fun _ => false
    isFile := fun q => q = ["wt", ".git"]
    isDir := fun _ => false
    readDir := fun _ => some []
    readFile := fun q => if q = ["wt", ".git"] then some "gitdir: /gone/repo\n" else none
    strPathExists := fun _ => false }

/-- C6 witness: the characterization applied at a concrete orphaned
worktree. -/
theorem is_orphaned_worktree_spec_witness :
    is_orphaned_worktree fsOrphan ["wt"] = true ∧
    is_orphaned_worktree fsOrphan ["other"] = false :=
  ⟨((is_orphaned_worktree_spec fsOrphan ["wt"]).2.2.2.2).mpr
      ⟨by decide, "gitdir: /gone/repo\n", by decide, "gitdir: /gone/repo", by decide, by decide⟩,
    (is_orphaned_worktree_spec fsOrphan ["other"]).1 (by decide)⟩

/-! ## C8: hook failures are swallowed -/

theorem run_hook_commands_trace (sh : String → Except String Unit)
    (vars : List (String × String)) (commands : List String) :
    run_hook_commands sh vars commands = commands.map (substVars vars) := by
  induction commands with
  | nil => rfl
  | cons c rest ih =>
    simp only [run_hook_commands, List.map_cons]
    cases sh (substVars vars c) <;> simp [ih]

theorem execute_hooks_sh_irrel (findConfig : Except String (Option (Option HooksData)))
    (sh₁ sh₂ : String → Except String Unit) (hookType : String)
    (vars : List (String × String)) :
    execute_hooks findConfig sh₁ hookType vars = execute_hooks findConfig sh₂ hookType vars := by
  rcases findConfig with e | (_ | (_ | hooks))
  · rfl
  · rfl
  · rfl
  · simp only [execute_hooks]
    cases hookCommandsFor hooks hookType with
    | none => rfl
    | some commands =>
      simp only [run_hook_commands_trace]

theorem execute_hooks_fst_eq (findConfig : Except String (Option (Option HooksData)))
    (sh : String → Except String Unit) (hookType : String)
    (vars : List (String × String)) :
    (execute_hooks findConfig sh hookType vars).fst =
      match findConfig with
      | .error e => .error e
      | .ok _ => .ok () := by
  rcases findConfig with e | (_ | (_ | hooks))
  · rfl
  · rfl
  · rfl
  · simp only [execute_hooks]
    cases hookCommandsFor hooks hookType with
    | none => rfl
    | some commands =>
      by_cases h : commands.isEmpty <;> simp [h]

/-- C8: given a resolvable configuration, `execute_hooks` runs every
configured command in order with `${name}` placeholders substituted, ignores
individual failures (the trace and result are the same for every shell
outcome pattern), always returns success, and consequently the results of
the enclosing add and remove flows do not depend on hook outcomes at all. -/
theorem execute_hooks_swallows_failures
    (findConfig : Except String (Option (Option HooksData)))
    (sh : String → Except String Unit) (hookType : String)
    (vars : List (String × String)) (c : Option (Option HooksData))
    (hc : findConfig = .ok c) :
    (execute_hooks findConfig sh hookType vars).fst = .ok () ∧
    (∀ hooks commands, c = some (some hooks) →
      hookCommandsFor hooks hookType = some commands →
      (execute_hooks findConfig sh hookType vars).snd = commands.map (substVars vars)) ∧
    (∀ (genv : GitEnv) (sh₁ sh₂ : String → Except String Unit) (tp mb bn : String),
      (addRunFromPaths genv findConfig sh₁ tp mb bn).fst =
        (addRunFromPaths genv findConfig sh₂ tp mb bn).fst) ∧
    (∀ (env : RemoveEnv) (wts : List Worktree) (bn : Option String)
      (sh₁ sh₂ : String → Except String Unit),
      (removeRun { env with sh := sh₁ } wts bn).fst =
        (removeRun { env with sh := sh₂ } wts bn).fst) := by
  refine ⟨?_, ?_, ?_, ?_⟩
  · rw [execute_hooks_fst_eq, hc]
  · intro hooks commands hcfg hcmds
    subst hc; subst hcfg
    simp only [execute_hooks, hcmds]
    by_cases h : commands.isEmpty
    · have : commands = [] := by
        cases commands with
        | nil => rfl
        | cons a l => simp [List.isEmpty] at h
      simp [h, this]
    · simp [h, run_hook_commands_trace]
  · intro genv sh₁ sh₂ tp mb bn
    simp only [addRunFromPaths]
    rw [execute_hooks_sh_irrel findConfig sh₁ sh₂]
  · intro env wts bn sh₁ sh₂
    simp only [removeRun]
    repeat' split <;> try rfl
    all_goals simp only [execute_hooks_sh_irrel env.findConfig sh₁ sh₂]

/-- Concrete hook configuration with two `postAdd` commands. -/
def hooksW : HooksData :=
  { post_add := some ["echo $\x7bbranchName\x7d", "exit 1"] }

/-- Shell in which the second hook command fails. -/
def shW : String → Except String Unit :=
  fun command => if command = "exit 1" then .error "exit status 1" else .ok ()

/-- C8 witness: with a failing hook command, `execute_hooks` still succeeds
and still ran both substituted commands. -/
theorem execute_hooks_swallows_failures_witness :
    (execute_hooks (.ok (some (some hooksW))) shW "postAdd" [("branchName", "feat")]).fst =
      .ok () ∧
    (execute_hooks (.ok (some (some hooksW))) shW "postAdd" [("branchName", "feat")]).snd =
      ["echo $\x7bbranchName\x7d", "exit 1"].map (substVars [("branchName", "feat")]) :=
  ⟨(execute_hooks_swallows_failures (.ok (some (some hooksW))) shW "postAdd"
      [("branchName", "feat")] (some (some hooksW)) rfl).1,
    (execute_hooks_swallows_failures (.ok (some (some hooksW))) shW "postAdd"
      [("branchName", "feat")] (some (some hooksW)) rfl).2.1 hooksW
      ["echo $\x7bbranchName\x7d", "exit 1"] rfl rfl⟩

/-! ## C9: config filenames are independent of the GitHub URL shape -/

/-- C9: the SSH and HTTPS GitHub URL shapes produce the identical config
filename, both for the spec's concrete example and for every owner/repo
suffix, whatever the hash fallback does. -/
theorem generate_config_filename_urlshape (short_hash : String → String) :
    generate_config_filename short_hash "git@github.com:owner/repo.git" =
      generate_config_filename short_hash "https://github.com/owner/repo.git" ∧
    ∀ ownerRepo : String,
      generate_config_filename short_hash ("git@github.com:" ++ ownerRepo) =
        generate_config_filename short_hash ("https://github.com/" ++ ownerRepo) := by
  have general : ∀ ownerRepo : String,
      generate_config_filename short_hash ("git@github.com:" ++ ownerRepo) =
        generate_config_filename short_hash ("https://github.com/" ++ ownerRepo) := by
    intro ownerRepo
    simp only [generate_config_filename, extract_repo_identifier,
      strStripPre_append, strip_https_git]
  refine ⟨?_, general⟩
  have e1 : "git@github.com:owner/repo.git" = "git@github.com:" ++ "owner/repo.git" := rfl
  have e2 : "https://github.com/owner/repo.git" = "https://github.com/" ++ "owner/repo.git" := rfl
  rw [e1, e2]
  exact general "owner/repo.git"

/-! ## C10: `branch_exists` swallows probe failures -/

/-- C10: `branch_exists` never returns an error; a failed local or remote
probe is treated as an empty listing, i.e. the branch is reported absent on
that side, and when both probes fail during an add the third
(new-branch-from-main) strategy is selected instead of aborting. -/
theorem branch_exists_swallows_errors (genv : GitEnv) (branchName : String) :
    (∃ b, branch_exists genv branchName = .ok b) ∧
    (∀ e, genv.capture (localProbeCmd branchName) = .error e →
      ∃ r, branch_exists genv branchName = .ok (false, r)) ∧
    (∀ e, genv.capture (remoteProbeCmd branchName) = .error e →
      ∃ l, branch_exists genv branchName = .ok (l, false)) ∧
    (∀ (findConfig : Except String (Option (Option HooksData)))
      (sh : String → Except String Unit) (tp mb : String) (e₁ e₂ : String),
      strIsEmpty branchName = false →
      genv.exec fetchCmd = .ok () →
      genv.capture (localProbeCmd branchName) = .error e₁ →
      genv.capture (remoteProbeCmd branchName) = .error e₂ →
      (addRunFromPaths genv findConfig sh tp mb branchName).snd =
        [fetchCmd, localProbeCmd branchName, remoteProbeCmd branchName,
          ["worktree", "add", "--no-track", tp, "-b", branchName, "origin/" ++ mb]]) := by
  refine ⟨⟨_, rfl⟩, ?_, ?_, ?_⟩
  · intro e he
    refine ⟨!strIsEmpty (match genv.capture (remoteProbeCmd branchName) with
      | .ok s => s | .error _ => ""), ?_⟩
    unfold branch_exists
    rw [he]
    rfl
  · intro e he
    refine ⟨!strIsEmpty (match genv.capture (localProbeCmd branchName) with
      | .ok s => s | .error _ => ""), ?_⟩
    unfold branch_exists
    rw [he]
    rfl
  · intro findConfig sh tp mb e₁ e₂ hbn hfetch h₁ h₂
    simp only [addRunFromPaths, hbn, Bool.false_eq_true, if_false, hfetch,
      branch_exists, h₁, h₂]
    simp only [strIsEmpty, List.isEmpty_nil, Bool.not_true, Bool.false_eq_true, if_false]
    cases hc : genv.exec ["worktree", "add", "--no-track", tp, "-b", branchName,
        "origin/" ++ mb] with
    | error e => simp
    | ok _ =>
      cases hh : (execute_hooks findConfig sh "postAdd"
          [("branchName", branchName), ("worktreePath", tp)]).fst <;> simp

/-- Environment in which both existence probes fail. -/
def genvProbesFail : GitEnv :=
  { exec := fun _ => .ok ()
    capture := fun _ => .error "fatal: not a git repository" }

/-- C10 witness: with both probes failing, `branch_exists` reports the branch
absent on both sides and an add issues the new-branch-from-main command. -/
theorem branch_exists_swallows_errors_witness :
    (∃ r, branch_exists genvProbesFail "feat" = .ok (false, r)) ∧
    (addRunFromPaths genvProbesFail (.ok none) (fun _ => .ok ()) "/w/feat" "main" "feat").snd =
      [fetchCmd, localProbeCmd "feat", remoteProbeCmd "feat",
        ["worktree", "add", "--no-track", "/w/feat", "-b", "feat", "origin/main"]] :=
  ⟨(branch_exists_swallows_errors genvProbesFail "feat").2.1 "fatal: not a git repository" rfl,
    (branch_exists_swallows_errors genvProbesFail "feat").2.2.2 (.ok none) (fun _ => .ok ())
      "/w/feat" "main" "fatal: not a git repository" "fatal: not a git repository"
      rfl rfl rfl rfl⟩

/-! ## C3: the three mutually exclusive creation strategies -/

/-- C3: after a successful `fetch origin`, an add issues exactly the two
existence probes and then exactly one creation command: attach to the local
branch when it exists, else create from `origin/<branch>` when it exists
remotely, else create a branch named after the request off
`origin/<main-branch>` with `--no-track`. -/
theorem add_creation_strategies (genv : GitEnv)
    (findConfig : Except String (Option (Option HooksData)))
    (sh : String → Except String Unit) (tp mb bn : String)
    (localExists remoteExists : Bool)
    (hbn : strIsEmpty bn = false)
    (hfetch : genv.exec fetchCmd = .ok ())
    (hbe : branch_exists genv bn = .ok (localExists, remoteExists)) :
    ((addRunFromPaths genv findConfig sh tp mb bn).snd =
      [fetchCmd, localProbeCmd bn, remoteProbeCmd bn,
        if localExists then ["worktree", "add", tp, bn]
        else if remoteExists then ["worktree", "add", tp, "-b", bn, "origin/" ++ bn]
        else ["worktree", "add", "--no-track", tp, "-b", bn, "origin/" ++ mb]]) ∧
    (localExists = true →
      (addRunFromPaths genv findConfig sh tp mb bn).snd =
        [fetchCmd, localProbeCmd bn, remoteProbeCmd bn, ["worktree", "add", tp, bn]]) ∧
    (localExists = false → remoteExists = true →
      (addRunFromPaths genv findConfig sh tp mb bn).snd =
        [fetchCmd, localProbeCmd bn, remoteProbeCmd bn,
          ["worktree", "add", tp, "-b", bn, "origin/" ++ bn]]) ∧
    (localExists = false → remoteExists = false →
      (addRunFromPaths genv findConfig sh tp mb bn).snd =
        [fetchCmd, localProbeCmd bn, remoteProbeCmd bn,
          ["worktree", "add", "--no-track", tp, "-b", bn, "origin/" ++ mb]]) := by
  have main : (addRunFromPaths genv findConfig sh tp mb bn).snd =
      [fetchCmd, localProbeCmd bn, remoteProbeCmd bn,
        if localExists then ["worktree", "add", tp, bn]
        else if remoteExists then ["worktree", "add", tp, "-b", bn, "origin/" ++ bn]
        else ["worktree", "add", "--no-track", tp, "-b", bn, "origin/" ++ mb]] := by
    simp only [addRunFromPaths, hbn, Bool.false_eq_true, if_false, hfetch, hbe]
    set creation := if localExists then ["worktree", "add", tp, bn]
      else if remoteExists then ["worktree", "add", tp, "-b", bn, "origin/" ++ bn]
      else ["worktree", "add", "--no-track", tp, "-b", bn, "origin/" ++ mb] with hcr
    cases hc : genv.exec creation with
    | error e => simp
    | ok _ =>
      cases hh : (execute_hooks findConfig sh "postAdd"
          [("branchName", bn), ("worktreePath", tp)]).fst <;> simp
  refine ⟨main, ?_, ?_, ?_⟩
  · intro hl; rw [main, hl]; simp
  · intro hl hr; rw [main, hl, hr]; simp
  · intro hl hr; rw [main, hl, hr]; simp

/-- Environment in which the branch exists locally. -/
def genvLocal : GitEnv :=
  { exec := fun _ => .ok ()
    capture := fun args => if args = localProbeCmd "feat" then .ok "  feat" else .ok "" }

/-- C3 witness: with a locally existing branch the attach strategy is the one
creation command issued, right after the fetch and the probes. -/
theorem add_creation_strategies_witness :
    (addRunFromPaths genvLocal (.ok none) (fun _ => .ok ()) "/w/feat" "main" "feat").snd =
      [fetchCmd, localProbeCmd "feat", remoteProbeCmd "feat",
        ["worktree", "add", "/w/feat", "feat"]] :=
  (add_creation_strategies genvLocal (.ok none) (fun _ => .ok ()) "/w/feat" "main" "feat"
    true false rfl rfl rfl).2.1 rfl

/-! ## C4: remove refuses the bare/main entry before doing anything -/

/-- C4: when the resolved target record is marked bare, remove fails with an
error and an empty event trace, i.e. before any git subprocess and before
any confirmation prompt, so nothing is mutated. -/
theorem remove_refuses_bare (env : RemoveEnv) (wts : List Worktree)
    (bn : Option String) (t : Worktree)
    (h : find_target_worktree env.currentDirIn wts bn = .ok t)
    (hb : t.bare = true) :
    removeRun env wts bn = (.error "Cannot remove the main (bare) repository.", []) := by
  cases wts with
  | nil =>
    exfalso
    cases bn <;> simp [find_target_worktree] at h
  | cons w ws =>
    simp only [removeRun, List.isEmpty_cons, Bool.false_eq_true, if_false, h, hb, if_true]

/-- A fully benign remove environment for concrete runs. -/
def envNeutral : RemoveEnv :=
  { currentDirIn := fun _ => false
    confirmAnswer := "y"
    forceAnswer := "n"
    projectRoot := .ok "/p"
    setCwd := .ok ()
    exec := fun _ => .ok ()
    capture := fun _ => .ok ""
    findConfig := .ok none
    sh := fun _ => .ok () }

/-- A worktree list with a bare main record and one checkout. -/
def wtsBare : List Worktree :=
  [{ path := "/p/main", head := "aaaa", branch := some "refs/heads/main", bare := true },
   { path := "/p/feat", head := "bbbb", branch := some "refs/heads/feat", bare := false }]

/-- C4 witness: targeting the bare record by its branch name fails with an
empty trace. -/
theorem remove_refuses_bare_witness :
    find_target_worktree envNeutral.currentDirIn wtsBare (some "main") =
      .ok { path := "/p/main", head := "aaaa", branch := some "refs/heads/main", bare := true } ∧
    removeRun envNeutral wtsBare (some "main") =
      (.error "Cannot remove the main (bare) repository.", []) :=
  ⟨by decide,
    remove_refuses_bare envNeutral wtsBare (some "main")
      { path := "/p/main", head := "aaaa", branch := some "refs/heads/main", bare := true }
      (by decide) rfl⟩

/-! ## C7: protected branches are never deleted -/

theorem bde_mem (capture : List String → Except String String) (forceAnswer : String)
    (bd d : String)
    (h : RmEvent.git ["branch", "-d", d] ∈ branch_deletion_events capture forceAnswer bd ∨
      RmEvent.git ["branch", "-D", d] ∈ branch_deletion_events capture forceAnswer bd) :
    d = bd ∧ PROTECTED_BRANCHES.contains bd = false := by
  by_cases hp : PROTECTED_BRANCHES.contains bd = true
  · unfold branch_deletion_events at h
    rw [hp] at h
    simp at h
  · have hp' : PROTECTED_BRANCHES.contains bd = false := by
      revert hp; cases PROTECTED_BRANCHES.contains bd <;> simp
    refine ⟨?_, hp'⟩
    unfold branch_deletion_events at h
    rw [hp'] at h
    simp only [Bool.false_eq_true, if_false] at h
    cases hcap : capture ["branch", "-d", bd] with
    | ok s =>
      rw [hcap] at h
      simp at h
      tauto
    | error e =>
      rw [hcap] at h
      dsimp only at h
      by_cases hm : strContainsSub e "not fully merged" = true
      · rw [if_pos hm] at h
        by_cases hy : strToLower (strTrim forceAnswer) = "y" ∨
            strToLower (strTrim forceAnswer) = "yes"
        · rw [if_pos hy] at h; simp at h; tauto
        · rw [if_neg hy] at h; simp at h; tauto
      · rw [if_neg hm] at h; simp at h; tauto

/-- C7: whatever remove does, any `branch -d` or `branch -D` it issues names
exactly the target's displayed branch, and only when that name is not in the
protected set; in particular a protected displayed branch is never deleted. -/
theorem remove_never_deletes_protected (env : RemoveEnv) (wts : List Worktree)
    (bn : Option String) (t : Worktree)
    (h : find_target_worktree env.currentDirIn wts bn = .ok t) :
    ∀ d, (RmEvent.git ["branch", "-d", d] ∈ (removeRun env wts bn).snd ∨
        RmEvent.git ["branch", "-D", d] ∈ (removeRun env wts bn).snd) →
      d = get_branch_display t ∧
      PROTECTED_BRANCHES.contains (get_branch_display t) = false := by
  intro d hd
  cases wts with
  | nil => cases bn <;> simp [find_target_worktree] at h
  | cons w ws =>
    simp only [removeRun, List.isEmpty_cons, Bool.false_eq_true, if_false, h] at hd
    repeat' split at hd
    all_goals simp at hd
    all_goals
      refine bde_mem env.capture env.forceAnswer (get_branch_display t) d ?_
    all_goals tauto

/-- Remove environment in which `branch -d` fails with an unmerged-changes
error and the force prompt is answered yes. -/
def envDel : RemoveEnv :=
  { currentDirIn := fun _ => false
    confirmAnswer := "y"
    forceAnswer := "y"
    projectRoot := .ok "/p"
    setCwd := .ok ()
    exec := fun _ => .ok ()
    capture := fun args =>
      if args = ["branch", "-d", "feat"] then
        .error "error: the branch 'feat' is not fully merged"
      else .ok ""
    findConfig := .ok none
    sh := fun _ => .ok () }

/-- C7 witness: a concrete remove of the non-protected branch `feat`, whose
trace does contain `branch -d feat`, satisfies the theorem's conclusion. -/
theorem remove_never_deletes_protected_witness :
    RmEvent.git ["branch", "-d", "feat"] ∈ (removeRun envDel wtsBare (some "feat")).snd ∧
    "feat" = get_branch_display
      { path := "/p/feat", head := "bbbb", branch := some "refs/heads/feat", bare := false } ∧
    PROTECTED_BRANCHES.contains (get_branch_display
      { path := "/p/feat", head := "bbbb", branch := some "refs/heads/feat", bare := false }) =
      false :=
  ⟨by decide,
    remove_never_deletes_protected envDel wtsBare (some "feat")
      { path := "/p/feat", head := "bbbb", branch := some "refs/heads/feat", bare := false }
      (by decide) "feat" (Or.inl (by decide))⟩

/-! ## C5: `find_valid_git_directory` takes the first candidate in order,
with no file-over-directory preference (unlike `find_existing_worktree`) -/

/-- Validity of one candidate directory for `find_valid_git_directory`: its
`.git` is a directory, or a file belonging to a non-orphaned worktree. -/
def fvgd_candidate_ok (fs : FS) (p : List String) : Bool :=
  fs.isDir (p ++ [".git"]) ||
    (fs.isFile (p ++ [".git"]) && !is_orphaned_worktree fs p)

theorem fvgd_loop_eq (fs : FS) (root : List String) (entries : List String) :
    fvgd_loop fs root entries =
      match ((entries.filter (fun e => fs.isDir (root ++ [e]))).map
          (fun e => root ++ [e])).find? (fvgd_candidate_ok fs) with
      | some p => .ok p
      | none => .error "No valid git directory found in project" := by
  induction entries with
  | nil => rfl
  | cons e rest ih =>
    cases hdir : fs.isDir (root ++ [e]) with
    | false => simp [fvgd_loop, hdir, List.filter_cons, ih]
    | true =>
      cases hg : fs.isDir (root ++ [e, ".git"]) with
      | true =>
        simp [fvgd_loop, hdir, hg, List.filter_cons, fvgd_candidate_ok, List.find?,
          List.append_assoc]
      | false =>
        cases hfb : fs.isFile (root ++ [e, ".git"]) with
        | false =>
          simp [fvgd_loop, hdir, hg, hfb, List.filter_cons, fvgd_candidate_ok, List.find?,
            List.append_assoc, ih]
        | true =>
          cases ho : is_orphaned_worktree fs (root ++ [e]) with
          | false =>
            simp [fvgd_loop, hdir, hg, hfb, ho, List.filter_cons, fvgd_candidate_ok,
              List.find?, List.append_assoc]
          | true =>
            simp [fvgd_loop, hdir, hg, hfb, ho, List.filter_cons, fvgd_candidate_ok,
              List.find?, List.append_assoc, ih]

/-- Filesystem exhibiting the order dependence: subdirectory `a` (first in
enumeration order) has a `.git` directory, subdirectory `b` has a `.git`
file of a non-orphaned worktree. -/
def fsC5 : FS :=
  { pathExists := fun p => p == ["r", "a", ".git"] || p == ["r", "b", ".git"]
    isFile := fun p => p == ["r", "b", ".git"]
    isDir := fun p => p == ["r", "a"] || p == ["r", "b"] || p == ["r", "a", ".git"]
    readDir := fun p => if p = ["r"] then some ["a", "b"] else some []
    readFile := fun _ => none
    strPathExists := fun _ => false }

/-- C5 counterexample: `find_existing_worktree` prefers the `.git`-file
candidate `b`, but `find_valid_git_directory` returns the earlier
`.git`-directory candidate `a` — it does not share the file-over-directory
preference the claim asserts, even though `b` is not orphaned. -/
theorem find_valid_git_directory_counterexample :
    find_existing_worktree fsC5 ["r"] = .ok ["r", "b"] ∧
    fsC5.isFile ["r", "b", ".git"] = true ∧
    is_orphaned_worktree fsC5 ["r", "b"] = false ∧
    fsC5.isDir ["r", "a", ".git"] = true ∧
    find_valid_git_directory fsC5 ["r"] = .ok ["r", "a"] ∧
    find_valid_git_directory fsC5 ["r"] ≠ .ok ["r", "b"] := by
  refine ⟨by decide, by decide, by decide, by decide, by decide, by decide⟩

/-- C5 amended: `find_valid_git_directory` returns the first candidate in
probe order — the root itself when its `.git` is a directory, then the
immediate subdirectories in enumeration order — whose `.git` is a directory
or is a file with `is_orphaned_worktree` false; in particular (under the
filesystem coherence that nothing is both a file and a directory) it never
returns a candidate for which `is_orphaned_worktree` is true, but it does
not prefer file-`.git` candidates over directory-`.git` candidates. -/
theorem find_valid_git_directory_amended (fs : FS) (root : List String)
    (entries : List String) (hrd : fs.readDir root = some entries) :
    (find_valid_git_directory fs root =
      match ((if fs.isDir (root ++ [".git"]) then [root] else []) ++
          (entries.filter (fun e => fs.isDir (root ++ [e]))).map (fun e => root ++ [e])).find?
          (fvgd_candidate_ok fs) with
      | some p => .ok p
      | none => .error "No valid git directory found in project") ∧
    ((∀ q, ¬(fs.isFile q = true ∧ fs.isDir q = true)) →
      ∀ p, find_valid_git_directory fs root = .ok p → is_orphaned_worktree fs p = false) := by
  have main : find_valid_git_directory fs root =
      match ((if fs.isDir (root ++ [".git"]) then [root] else []) ++
          (entries.filter (fun e => fs.isDir (root ++ [e]))).map (fun e => root ++ [e])).find?
          (fvgd_candidate_ok fs) with
      | some p => .ok p
      | none => .error "No valid git directory found in project" := by
    by_cases hroot : fs.isDir (root ++ [".git"]) = true
    · simp [find_valid_git_directory, hroot, List.find?, fvgd_candidate_ok]
    · simp only [find_valid_git_directory, hroot, Bool.false_eq_true, if_false, hrd]
      rw [fvgd_loop_eq]
      simp [hroot]
  refine ⟨main, ?_⟩
  intro hcoh p hp
  rw [main] at hp
  cases hfind : ((if fs.isDir (root ++ [".git"]) then [root] else []) ++
      (entries.filter (fun e => fs.isDir (root ++ [e]))).map (fun e => root ++ [e])).find?
      (fvgd_candidate_ok fs) with
  | none => rw [hfind] at hp; cases hp
  | some q =>
    rw [hfind] at hp
    have hq : q = p := by cases hp; rfl
    subst hq
    have hok := List.find?_some hfind
    simp only [fvgd_candidate_ok, Bool.or_eq_true, Bool.and_eq_true] at hok
    rcases hok with hdirg | ⟨hfileg, horph⟩
    · have hnf : fs.isFile (q ++ [".git"]) = false := by
        by_contra hc
        have : fs.isFile (q ++ [".git"]) = true := by
          revert hc; cases fs.isFile (q ++ [".git"]) <;> simp
        exact hcoh (q ++ [".git"]) ⟨this, hdirg⟩
      simp [is_orphaned_worktree, hnf]
    · revert horph; cases is_orphaned_worktree fs q <;> simp

/-- C5 witness: the amended first-match description applied at the concrete
two-candidate filesystem, including the orphan-freeness conclusion. -/
theorem find_valid_git_directory_amended_witness :
    find_valid_git_directory fsC5 ["r"] = .ok ["r", "a"] ∧
    is_orphaned_worktree fsC5 ["r", "a"] = false :=
  ⟨((find_valid_git_directory_amended fsC5 ["r"] ["a", "b"] rfl).1).trans (by decide),
    (find_valid_git_directory_amended fsC5 ["r"] ["a", "b"] rfl).2
      (by
        intro q hq
        rcases hq with ⟨h1, h2⟩
        simp only [fsC5, beq_iff_eq] at h1
        subst h1
        simp [fsC5] at h2)
      ["r", "a"] (by decide)⟩

/-! ## C1: project-root resolution from inside a worktrees directory -/

theorem fmp_concat (fs : FS) (l : List String) (a : String) :
    find_main_project_from_worktree fs (l ++ [a]) =
      if strEndsWith a wtSuffix then
        (if validCandidate fs (l ++ [trimEndMatchesStr a wtSuffix]) then
          some (l ++ [trimEndMatchesStr a wtSuffix])
        else find_main_project_from_worktree fs l)
      else find_main_project_from_worktree fs l := by
  show fmpAux fs (l ++ [a]).length (l ++ [a]) = _
  have hlen : (l ++ [a]).length = l.length + 1 := by simp
  rw [hlen]
  simp only [fmpAux, List.getLast?_concat, Option.getD_some, List.dropLast_concat]
  rfl

theorem fmpw_eq_fmp (fs : FS) (p : List String) :
    find_main_project_from_worktrees_path fs p = find_main_project_from_worktree fs p := rfl

theorem fmp_inside (fs : FS) (P : List String) (wname : String) (rest : List String)
    (hw : strEndsWith wname wtSuffix = true)
    (hrest : ∀ r ∈ rest, strEndsWith r wtSuffix = false)
    (hvalid : validCandidate fs (P ++ [trimEndMatchesStr wname wtSuffix]) = true) :
    find_main_project_from_worktree fs (P ++ wname :: rest) =
      some (P ++ [trimEndMatchesStr wname wtSuffix]) := by
  induction rest using List.reverseRecOn with
  | nil =>
    have he : P ++ wname :: ([] : List String) = P ++ [wname] := rfl
    rw [he, fmp_concat, if_pos hw, if_pos hvalid]
  | append_singleton rest' r ih =>
    have hr : strEndsWith r wtSuffix = false := hrest r (by simp)
    have hassoc : P ++ wname :: (rest' ++ [r]) = (P ++ wname :: rest') ++ [r] := by simp
    rw [hassoc, fmp_concat, hr]
    simp only [Bool.false_eq_true, if_false]
    exact ih (fun x hx => hrest x (by simp [hx]))

theorem fmp_none (fs : FS) (g : List String)
    (h : ∀ l a, l ++ [a] <+: g → strEndsWith a wtSuffix = true →
      validCandidate fs (l ++ [trimEndMatchesStr a wtSuffix]) = false) :
    find_main_project_from_worktree fs g = none := by
  induction g using List.reverseRecOn with
  | nil => rfl
  | append_singleton g' a ih =>
    rw [fmp_concat]
    have hrec : find_main_project_from_worktree fs g' = none :=
      ih (fun l b hpre hb => h l b (hpre.trans (List.prefix_append g' [a])) hb)
    by_cases ha : strEndsWith a wtSuffix = true
    · rw [if_pos ha, h g' a (List.prefix_refl _) ha]
      simp only [Bool.false_eq_true, if_false]
      exact hrec
    · rw [if_neg ha]
      exact hrec

/-- C1 amended: when the git top-level lies inside `P/<wname>` with `wname`
ending in `-worktrees`, and neither the derived sibling name nor any deeper
component re-triggers the suffix check (no component below the worktrees
directory ends in `-worktrees`), the resolved root is the sibling `P/<m>`
where `m` is `wname` with all trailing `-worktrees` repetitions stripped
(not just one), provided that sibling validates; when every ancestor's
derived candidate fails validation, the git top-level itself is returned;
and the same sibling derivation applies to the start path when no git
top-level is discoverable. -/
theorem find_project_root_from_amended (env : ResolveEnv) (start P : List String)
    (wname : String) (rest : List String) :
    (env.gitRoot = some (P ++ wname :: rest) →
      strEndsWith wname wtSuffix = true →
      (∀ r ∈ rest, strEndsWith r wtSuffix = false) →
      validCandidate env.fs (P ++ [trimEndMatchesStr wname wtSuffix]) = true →
      find_project_root_from env start = .ok (P ++ [trimEndMatchesStr wname wtSuffix])) ∧
    (∀ g, env.gitRoot = some g →
      (∀ l a, l ++ [a] <+: g → strEndsWith a wtSuffix = true →
        validCandidate env.fs (l ++ [trimEndMatchesStr a wtSuffix]) = false) →
      find_project_root_from env start = .ok g) ∧
    (env.gitRoot = none →
      strEndsWith wname wtSuffix = true →
      (∀ r ∈ rest, strEndsWith r wtSuffix = false) →
      validCandidate env.fs (P ++ [trimEndMatchesStr wname wtSuffix]) = true →
      find_project_root_from env (P ++ wname :: rest) =
        .ok (P ++ [trimEndMatchesStr wname wtSuffix])) := by
  refine ⟨?_, ?_, ?_⟩
  · intro hg hw hrest hv
    unfold find_project_root_from
    rw [hg]
    dsimp only
    rw [fmp_inside env.fs P wname rest hw hrest hv]
  · intro g hg hfail
    unfold find_project_root_from
    rw [hg]
    dsimp only
    rw [fmp_none env.fs g hfail]
  · intro hg hw hrest hv
    unfold find_project_root_from
    rw [hg]
    dsimp only
    rw [fmpw_eq_fmp, fmp_inside env.fs P wname rest hw hrest hv]

/-- Filesystem of the counterexample: the project root `home/app-worktrees`
has a `.git` entry; nothing else exists. -/
def fsC1 : FS :=
  { pathExists := fun p => p = ["home", "app-worktrees", ".git"]
    isFile := fun _ => false
    isDir := fun _ => false
    readDir := fun _ => some []
    readFile := fun _ => none
    strPathExists := fun _ => false }

/-- Environment whose git top-level is inside the sibling worktrees
directory of the root `home/app-worktrees`. -/
def envC1 : ResolveEnv :=
  { fs := fsC1
    gitRoot := some ["home", "app-worktrees-worktrees", "feat"]
    configProjectPath := none }

/-- C1 counterexample: the root `X = home/app-worktrees` contains `.git` and
the start is inside the sibling `X-worktrees = home/app-worktrees-worktrees`,
yet resolution does not return `X`: `trim_end_matches` strips the suffix
repeatedly, deriving `home/app`, whose validation fails, so the git
top-level itself is returned instead of `X`. -/
theorem find_project_root_from_counterexample :
    fsC1.pathExists ["home", "app-worktrees", ".git"] = true ∧
    envC1.gitRoot = some ["home", "app-worktrees-worktrees", "feat"] ∧
    trimEndMatchesStr "app-worktrees-worktrees" wtSuffix = "app" ∧
    find_project_root_from envC1 ["home", "app-worktrees-worktrees", "feat"] =
      .ok ["home", "app-worktrees-worktrees", "feat"] ∧
    find_project_root_from envC1 ["home", "app-worktrees-worktrees", "feat"] ≠
      .ok ["home", "app-worktrees"] :=
  ⟨by decide, rfl, by decide, by decide, by decide⟩

/-- Filesystem and environment of a well-behaved layout: root `h/app` with a
`.git` entry, git top-level inside the sibling `h/app-worktrees`. -/
def fsC1w : FS :=
  { pathExists := fun p => p = ["h", "app", ".git"]
    isFile := fun _ => false
    isDir := fun _ => false
    readDir := fun _ => some []
    readFile := fun _ => none
    strPathExists := fun _ => false }

def envC1w : ResolveEnv :=
  { fs := fsC1w
    gitRoot := some ["h", "app-worktrees", "x"]
    configProjectPath := none }

/-- C1 witness: the amended statement applied to a concrete well-behaved
layout resolves the sibling root. -/
theorem find_project_root_from_amended_witness :
    validCandidate fsC1w (["h"] ++ [trimEndMatchesStr "app-worktrees" wtSuffix]) = true ∧
    find_project_root_from envC1w [] =
      .ok (["h"] ++ [trimEndMatchesStr "app-worktrees" wtSuffix]) :=
  ⟨by decide,
    (find_project_root_from_amended envC1w [] ["h"] "app-worktrees" ["x"]).1 rfl
      (by decide) (by decide) (by decide)⟩

/-! ## C2: the porcelain parser agrees with the segment-based description -/

/-- First-of-two options (Rust-style "last write wins" folded backwards). -/
def orO (a b : Option String) : Option String :=
  match a with
  | some x => some x
  | none => b

theorem orO_none (a : Option String) : orO a none = a := by cases a <;> rfl

theorem orO_orO_some (a : Option String) (x : String) (b : Option String) :
    orO (orO a (some x)) b = orO a (some x) := by cases a <;> rfl

theorem getLast?_cons_or (a : String) (xs : List String) :
    (a :: xs).getLast? = orO xs.getLast? (some a) := by
  induction xs generalizing a with
  | nil => rfl
  | cons y ys ih => rw [List.getLast?_cons_cons, ih y, orO_orO_some]

theorem strext {s t : String} (h : s.data = t.data) : s = t := by
  cases s; cases t; cases h; rfl

theorem stripPre_some_eq (l pat r : String) (h : strStripPre l pat = some r) :
    l = pat ++ r := by
  unfold strStripPre at h
  by_cases hp : pat.data.isPrefixOf l.data = true
  · rw [if_pos hp] at h
    obtain ⟨t, ht⟩ := List.isPrefixOf_iff_prefix.mp hp
    have hr : r = ⟨l.data.drop pat.data.length⟩ := by
      injection h with h'
      exact h'.symm
    subst hr
    refine (strext ?_).symm
    rw [String.data_append, ← ht, List.drop_left]
  · rw [if_neg hp] at h
    cases h

theorem isWtStart_false_strip (l : String) (h : isWtStart l = false) :
    strStripPre l "worktree " = none := by
  unfold isWtStart strStartsWith at h
  unfold strStripPre
  simp [h]

theorem isWtStart_true_strip (l : String) (h : isWtStart l = true) :
    ∃ p, strStripPre l "worktree " = some p := by
  unfold isWtStart strStartsWith at h
  exact ⟨_, by unfold strStripPre; rw [if_pos h]⟩

theorem head_excl (l h : String) (hH : strStripPre l "HEAD " = some h) :
    strStripPre l "branch " = none ∧ l ≠ "bare" := by
  have hl := stripPre_some_eq l "HEAD " h hH
  subst hl
  refine ⟨?_, ?_⟩
  · unfold strStripPre
    have hfalse : ("branch ".data).isPrefixOf (("HEAD " ++ h).data) = false := rfl
    simp [hfalse]
  · intro he
    have h1 : ("HEAD " ++ h).data.head? = some 'H' := rfl
    rw [he] at h1
    exact absurd h1 (by decide)

theorem branch_not_bare (l b : String) (hB : strStripPre l "branch " = some b) :
    l ≠ "bare" := by
  intro he
  subst he
  have hn : strStripPre "bare" "branch " = none := by decide
  rw [hn] at hB
  cases hB

/-- The effect of one non-`worktree` line on the partial entry, as in the
loop of `parse_worktree_list`. -/
def applyNonStart (w : PartialWt) (l : String) : PartialWt :=
  match parse_worktree_line l with
  | .new _ => w
  | .hd h => { w with head := some h }
  | .br b => { w with branch := some b }
  | .bare => { w with bare := true }
  | .other => w

/-- Fold of `applyNonStart` over a segment. -/
def applySeg (w : PartialWt) : List String → PartialWt
  | [] => w
  | l :: rest => applySeg (applyNonStart w l) rest

theorem segHead_cons (l : String) (rest : List String) :
    segHead (l :: rest) = orO (segHead rest) (strStripPre l "HEAD ") := by
  unfold segHead
  rw [List.filterMap_cons]
  cases hf : strStripPre l "HEAD " with
  | none => rw [orO_none]
  | some h => rw [getLast?_cons_or]

theorem segBranch_cons (l : String) (rest : List String) :
    segBranch (l :: rest) = orO (segBranch rest) (strStripPre l "branch ") := by
  unfold segBranch
  rw [List.filterMap_cons]
  cases hf : strStripPre l "branch " with
  | none => rw [orO_none]
  | some b => rw [getLast?_cons_or]

theorem segBare_cons (l : String) (rest : List String) :
    segBare (l :: rest) = (decide (l = "bare") || segBare rest) := by
  simp [segBare]

theorem applySeg_fields (seg : List String) : ∀ w : PartialWt,
    (∀ x ∈ seg, isWtStart x = false) →
    applySeg w seg = { path := w.path, head := orO (segHead seg) w.head,
                       branch := orO (segBranch seg) w.branch,
                       bare := segBare seg || w.bare } := by
  induction seg with
  | nil =>
    intro w _
    simp [applySeg, segHead, segBranch, segBare, orO]
  | cons l rest ih =>
    intro w hseg
    have hl : isWtStart l = false := hseg l (by simp)
    have hW : strStripPre l "worktree " = none := isWtStart_false_strip l hl
    have hrest : ∀ x ∈ rest, isWtStart x = false := fun x hx => hseg x (by simp [hx])
    show applySeg (applyNonStart w l) rest = _
    rw [ih _ hrest, segHead_cons, segBranch_cons, segBare_cons]
    cases hH : strStripPre l "HEAD " with
    | some h =>
      obtain ⟨hB, hbare⟩ := head_excl l h hH
      have ha : applyNonStart w l = { w with head := some h } := by
        simp [applyNonStart, parse_worktree_line, hW, hH]
      rw [hB, ha, decide_eq_false hbare]
      simp [orO_orO_some, orO_none]
    | none =>
      cases hB : strStripPre l "branch " with
      | some b =>
        have hbare : l ≠ "bare" := branch_not_bare l b hB
        have ha : applyNonStart w l = { w with branch := some b } := by
          simp [applyNonStart, parse_worktree_line, hW, hH, hB]
        rw [ha, decide_eq_false hbare]
        simp [orO_orO_some, orO_none]
      | none =>
        by_cases hbare : l = "bare"
        · subst hbare
          have ha : applyNonStart w "bare" = { w with bare := true } := by
            simp [applyNonStart, parse_worktree_line, hW, hH, hB]
          rw [ha]
          simp [orO_none]
        · have ha : applyNonStart w l = w := by
            simp [applyNonStart, parse_worktree_line, hW, hH, hB, hbare]
          rw [ha, decide_eq_false hbare]
          simp [orO_none]

theorem applySeg_into (p : String) (seg : List String)
    (hseg : ∀ x ∈ seg, isWtStart x = false) :
    (applySeg { path := some p : PartialWt } seg).into_worktree.toList =
      (match segHead seg with
       | some h => [{ path := p, head := h, branch := segBranch seg, bare := segBare seg }]
       | none => []) := by
  rw [applySeg_fields seg _ hseg]
  cases hh : segHead seg with
  | some h => simp [PartialWt.into_worktree, orO_none, hh]
  | none => simp [PartialWt.into_worktree, orO_none, hh]

theorem parseLoop_cons_nonstart (l : String) (rest : List String) (w : PartialWt)
    (hs : isWtStart l = false) :
    parseLoop (l :: rest) (some w) = parseLoop rest (some (applyNonStart w l)) := by
  have hW := isWtStart_false_strip l hs
  cases hH : strStripPre l "HEAD " with
  | some h => simp [parseLoop, applyNonStart, parse_worktree_line, hW, hH]
  | none =>
    cases hB : strStripPre l "branch " with
    | some b => simp [parseLoop, applyNonStart, parse_worktree_line, hW, hH, hB]
    | none =>
      by_cases hbare : l = "bare"
      · subst hbare
        simp [parseLoop, applyNonStart, parse_worktree_line, hW, hH, hB, flushPartial]
      · simp [parseLoop, applyNonStart, parse_worktree_line, hW, hH, hB, hbare, flushPartial]

theorem parseLoop_some (lines : List String) : ∀ w : PartialWt,
    parseLoop lines (some w) =
      (applySeg w (lines.takeWhile (fun x => !isWtStart x))).into_worktree.toList ++
        worktreeEntriesSpec (lines.dropWhile (fun x => !isWtStart x)) := by
  induction lines with
  | nil =>
    intro w
    simp [parseLoop, applySeg, worktreeEntriesSpec, flushPartial]
  | cons l rest ih =>
    intro w
    cases hs : isWtStart l with
    | true =>
      obtain ⟨p, hp⟩ := isWtStart_true_strip l hs
      have ht : (l :: rest).takeWhile (fun x => !isWtStart x) = [] := by
        simp [List.takeWhile_cons, hs]
      have hd : (l :: rest).dropWhile (fun x => !isWtStart x) = l :: rest := by
        simp [List.dropWhile_cons, hs]
      rw [ht, hd]
      have hmem : ∀ x ∈ rest.takeWhile (fun x => !isWtStart x), isWtStart x = false := by
        intro x hx
        have := List.mem_takeWhile_imp hx
        revert this
        cases isWtStart x <;> simp
      calc parseLoop (l :: rest) (some w)
          = w.into_worktree.toList ++ parseLoop rest (some { path := some p }) := by
            simp [parseLoop, parse_worktree_line, hp, flushPartial]
        _ = w.into_worktree.toList ++
              ((applySeg { path := some p : PartialWt }
                  (rest.takeWhile (fun x => !isWtStart x))).into_worktree.toList ++
                worktreeEntriesSpec (rest.dropWhile (fun x => !isWtStart x))) := by
            rw [ih]
        _ = _ := by
            rw [applySeg_into p _ hmem]
            simp [applySeg, worktreeEntriesSpec, hp]
    | false =>
      have ht : (l :: rest).takeWhile (fun x => !isWtStart x) =
          l :: rest.takeWhile (fun x => !isWtStart x) := by
        simp [List.takeWhile_cons, hs]
      have hd : (l :: rest).dropWhile (fun x => !isWtStart x) =
          rest.dropWhile (fun x => !isWtStart x) := by
        simp [List.dropWhile_cons, hs]
      rw [ht, hd, parseLoop_cons_nonstart l rest w hs]
      show parseLoop rest (some (applyNonStart w l)) =
        (applySeg (applyNonStart w l) (rest.takeWhile (fun x => !isWtStart x))).into_worktree.toList ++
          worktreeEntriesSpec (rest.dropWhile (fun x => !isWtStart x))
      exact ih (applyNonStart w l)

theorem parseLoop_none (lines : List String) :
    parseLoop lines none = worktreeEntriesSpec lines := by
  induction lines with
  | nil => simp [parseLoop, worktreeEntriesSpec, flushPartial]
  | cons l rest ih =>
    cases hs : isWtStart l with
    | true =>
      obtain ⟨p, hp⟩ := isWtStart_true_strip l hs
      have hmem : ∀ x ∈ rest.takeWhile (fun x => !isWtStart x), isWtStart x = false := by
        intro x hx
        have := List.mem_takeWhile_imp hx
        revert this
        cases isWtStart x <;> simp
      calc parseLoop (l :: rest) none
          = parseLoop rest (some { path := some p }) := by
            simp [parseLoop, parse_worktree_line, hp, flushPartial]
        _ = _ := by
            rw [parseLoop_some rest { path := some p }, applySeg_into p _ hmem]
            simp [worktreeEntriesSpec, hp]
    | false =>
      have hW := isWtStart_false_strip l hs
      have step : parseLoop (l :: rest) none = parseLoop rest none := by
        cases hH : strStripPre l "HEAD " with
        | some h => simp [parseLoop, parse_worktree_line, hW, hH]
        | none =>
          cases hB : strStripPre l "branch " with
          | some b => simp [parseLoop, parse_worktree_line, hW, hH, hB]
          | none =>
            by_cases hbare : l = "bare"
            · subst hbare
              simp [parseLoop, parse_worktree_line, hW, hH, hB, flushPartial]
            · simp [parseLoop, parse_worktree_line, hW, hH, hB, hbare, flushPartial]
      rw [step, ih]
      have hspec : worktreeEntriesSpec (l :: rest) = worktreeEntriesSpec rest := by
        simp [worktreeEntriesSpec, hW]
      rw [hspec]

/-- C2: `parse_worktree_list` returns exactly the entries described by the
segment decomposition of its input lines — one entry per `worktree <path>`
line that also observed a `HEAD <hash>` line before the next `worktree` line
or end of input (so a partial or truncated trailing entry without a head is
silently dropped), with optional `branch`, `bare` defaulting to false and
set by a literal `bare` line, and all other lines ignored. -/
theorem parse_worktree_list_correct (output : String) :
    parse_worktree_list output = worktreeEntriesSpec (rustLines output) :=
  parseLoop_none (rustLines output)
